import Mathlib

/-!
Verification of the PFM image loader (`src/imageio/PfmImageLoader.cpp`).

The C++ loader is shallowly embedded below:
* an input stream (`std::istream`) becomes a byte list with a read position
  and a fail flag (`Strm`);
* parsed 32-bit floats are modelled by `PfmFloat` (NaN, signed infinity, or a
  finite value represented exactly as a rational), since the loader only uses
  `isfinite`, comparison with zero, the sign, and the absolute value of the
  parsed scale;
* the raw payload is a byte list; each sample is the 4-byte group at its flat
  index, interpreted through a caller-supplied interpretation function
  `interp : List Nat -> Rat` standing for the host's bit-level float decoding;
  `swapBytes` on a float is reversal of its 4 bytes before interpretation;
* the per-row parallel scatter loop becomes explicit folds over the row,
  column and channel index lists, acting on a channel-indexed grid state;
* the deterministic allocation failure that a negative parsed dimension
  provokes (the channel grids of line 51 and the payload buffer of line 66)
  is an explicit error `LoadErr.allocFailed`, distinct from the
  `invalid_argument` family;
* the external collaborators (`matchesFuzzy`, `makeNChannels`,
  `isSystemLittleEndian`) are parameters or are modelled from the spec where
  noted.
-/

namespace Pfm

/-- A byte stream: backing data, current read position, and the fail flag
(`failbit`/`eofbit` of `std::istream`, collapsed to one flag since the loader
only ever tests overall stream goodness and clears all flags at once). -/
structure Strm where
  data : List Nat
  pos : Nat
  fail : Bool
deriving DecidableEq, Repr

/-- Model of a parsed IEEE-754 32-bit float as the loader observes it:
not-a-number, a signed infinity, or an exact finite value. -/
inductive PfmFloat where
  | nan : PfmFloat
  | inf (neg : Bool) : PfmFloat
  | fin (q : Rat) : PfmFloat
deriving DecidableEq, Repr

/-- `std::isfinite` on the parsed scale. -/
def PfmFloat.isFinite : PfmFloat → Bool
  | .fin _ => true
  | _ => false

/-- The `scale == 0` test (NaN and infinities compare unequal to zero). -/
def PfmFloat.isZero : PfmFloat → Bool
  | .fin q => q == 0
  | _ => false

/-- The `scale < 0` test (false on NaN, the sign on an infinity). -/
def PfmFloat.isNeg : PfmFloat → Bool
  | .nan => false
  | .inf n => n
  | .fin q => decide (q < 0)

/-- `abs(scale)` for a validated (hence finite) scale. -/
def PfmFloat.absQ : PfmFloat → Rat
  | .fin q => |q|
  | _ => 0

/-- Error taxonomy of `PfmImageLoader::load`: one constructor per distinct
`throw invalid_argument` site in the source, carrying the same diagnostics,
plus `allocFailed` for the allocation failure (`std::length_error` /
`std::bad_alloc`, not an `invalid_argument`) that a negative parsed dimension
deterministically provokes: `makeNChannels(numChannels, size)` at line 51
allocates grids with a negative dimension, and `vector<float> data(numFloats)`
at line 66 converts a negative `numFloats` to a huge `size_t`. -/
inductive LoadErr where
  | invalidMagic (magic : String) : LoadErr
  | invalidScale (scale : PfmFloat) : LoadErr
  | zeroPixels : LoadErr
  | truncated (got expected : Int) : LoadErr
  | allocFailed : LoadErr
deriving DecidableEq, Repr

/-- A named 2D grid of samples; `atPos` is `Channel::at({x, y})`. -/
structure Channel where
  name : String
  atPos : Int × Int → Rat

/-- The assembled result: ordered channels plus layer names. -/
structure ImageData where
  channels : List Channel
  layers : List String

/-- Fallback channel used to realise `channels[i]` indexing on lists. -/
def chDummy : Channel := ⟨"", fun _ => 0⟩

/-- Modelled from the spec: the external channel factory `makeNChannels`
(declared in the repo but not under `src/`) allocates `numChannels`
zero-initialised grids with deterministic default names (R/G/B or Y, plus A
for the 4-channel variant). -/
def defaultChannelName (numChannels i : Nat) : String :=
  if numChannels = 1 then "Y"
  else if i = 0 then "R"
  else if i = 1 then "G"
  else if i = 2 then "B"
  else "A"

/-- Modelled from the spec: `makeNChannels(numChannels, size)` gives
`numChannels` zero-initialised channels with default names. -/
def makeNChannels (numChannels : Nat) : List Channel :=
  (List.range numChannels).map fun i => ⟨defaultChannelName numChannels i, fun _ => 0⟩

/-- `istream::read(buf, n)`: on a failed stream nothing is extracted;
otherwise up to `n` bytes are taken from the current position, and failure is
flagged iff fewer than `n` were available (a non-positive `n` extracts
nothing and sets no flag). Returns the extracted bytes (whose length is
`gcount()`) and the advanced stream. -/
def readBytes (s : Strm) (n : Int) : List Nat × Strm :=
  if s.fail then ([], s)
  else
    let avail := s.data.length - s.pos
    let k := min n.toNat avail
    ((s.data.drop s.pos).take k, { s with pos := s.pos + k, fail := decide ((k : Int) < n) })

/-- `PfmImageLoader::canLoadFile`: read 2 bytes, test for the
magic prefix 'P' then 'F' or 'f', then `clear()` and `seekg(0)`. -/
def canLoadFile (s : Strm) : Bool × Strm :=
  let r := readBytes s 2
  let b := r.1
  let result := !r.2.fail && b.length == 2 && b.getD 0 0 == 80 &&
    (b.getD 1 0 == 70 || b.getD 1 0 == 102)
  (result, { r.2 with pos := 0, fail := false })

/-- The magic-token dispatch of `load`: "Pf" has 1 channel, "PF" has 3,
"PF4" has 4, anything else is invalid. -/
def numChannelsOfMagic (magic : String) : Option Nat :=
  if magic = "Pf" then some 1
  else if magic = "PF" then some 3
  else if magic = "PF4" then some 4
  else none

/-- Line 73 of the source: bytes are swapped exactly when the host's
endianness differs from the one encoded by the sign of the scale. -/
def shallSwapBytes (hostLittleEndian isPfmLittleEndian : Bool) : Bool :=
  hostLittleEndian != isPfmLittleEndian

/-- A byte on which the header-terminator loop keeps running: neither
carriage return (13) nor line feed (10). -/
def notTermByte (b : Nat) : Bool := !(b == 13 || b == 10)

/-- The header-terminator loop
`while (iStream.get(c) && c != '\r' && c != '\n');` in closed form: consume
bytes up to and including the first carriage return or line feed; if none
remains the stream runs out and fails. -/
def skipHeaderLine (s : Strm) : Strm :=
  if s.fail then s
  else
    let rem := s.data.drop s.pos
    let k := (rem.takeWhile notTermByte).length
    if k < rem.length then { s with pos := s.pos + k + 1 }
    else { s with pos := s.data.length, fail := true }

/-- Whitespace as recognised by stream extraction (`std::isspace`). -/
def isSpaceByte (b : Nat) : Bool :=
  b == 32 || b == 9 || b == 10 || b == 13 || b == 11 || b == 12

/-- Decimal digit byte. -/
def isDigitByte (b : Nat) : Bool :=
  48 ≤ b && b ≤ 57

/-- Value of a digit-byte string. -/
def digitsToNat (l : List Nat) : Nat :=
  l.foldl (fun a d => a * 10 + (d - 48)) 0

/-- `iStream >> magic`: skip whitespace, then extract the maximal run of
non-whitespace bytes; extracting nothing sets the fail flag. -/
def extractToken (s : Strm) : String × Strm :=
  if s.fail then ("", s)
  else
    let rem := s.data.drop s.pos
    let ws := (rem.takeWhile isSpaceByte).length
    let tok := (rem.drop ws).takeWhile fun b => !isSpaceByte b
    if tok.length = 0 then ("", { s with pos := s.data.length, fail := true })
    else (String.mk (tok.map Char.ofNat), { s with pos := s.pos + ws + tok.length })

/-- `iStream >> intValue`: skip whitespace, optional sign, decimal digits;
a failed parse yields 0 (C++11 semantics) and sets the fail flag. -/
def extractInt (s : Strm) : Int × Strm :=
  if s.fail then (0, s)
  else
    let rem := s.data.drop s.pos
    let ws := (rem.takeWhile isSpaceByte).length
    let r1 := rem.drop ws
    let sgn : Int := if r1.getD 0 0 == 45 then -1 else 1
    let sk := if r1.getD 0 0 == 45 || r1.getD 0 0 == 43 then 1 else 0
    let ds := (r1.drop sk).takeWhile isDigitByte
    if ds.length = 0 then (0, { s with pos := s.pos + ws + sk, fail := true })
    else (sgn * digitsToNat ds, { s with pos := s.pos + ws + sk + ds.length })

/-- `iStream >> scale` for the plain decimal floats a PFM header carries:
skip whitespace, optional sign, integer digits, optional fractional part;
a failed parse yields 0.0 and sets the fail flag. -/
def extractFloat (s : Strm) : PfmFloat × Strm :=
  if s.fail then (.fin 0, s)
  else
    let rem := s.data.drop s.pos
    let ws := (rem.takeWhile isSpaceByte).length
    let r1 := rem.drop ws
    let sgn : Rat := if r1.getD 0 0 == 45 then -1 else 1
    let sk := if r1.getD 0 0 == 45 || r1.getD 0 0 == 43 then 1 else 0
    let ip := (r1.drop sk).takeWhile isDigitByte
    let r2 := (r1.drop sk).drop ip.length
    let hasDot := r2.getD 0 0 == 46
    let fp := if hasDot then (r2.drop 1).takeWhile isDigitByte else []
    if ip.length = 0 ∧ fp.length = 0 then
      (.fin 0, { s with pos := s.pos + ws + sk, fail := true })
    else
      (.fin (sgn * ((digitsToNat ip : Rat) + (digitsToNat fp : Rat) / 10 ^ fp.length)),
        { s with pos := s.pos + ws + sk + ip.length + (if hasDot then 1 + fp.length else 0) })

/-- Group the payload bytes into the 4-byte groups backing each float of the
`data` buffer (`numBytes = numFloats * sizeof(float)`). -/
def chunk4 : List Nat → List (List Nat)
  | b0 :: b1 :: b2 :: b3 :: rest => [b0, b1, b2, b3] :: chunk4 rest
  | _ => []

/-- Everything the parallel scatter loop of `load` reads: the bit-level float
interpretation, the validated scale, the swap decision, the float buffer as
4-byte groups, and the dimensions. -/
structure DecodeCtx where
  interp : List Nat → Rat
  scaleQ : Rat
  swap : Bool
  words : List (List Nat)
  w : Int
  h : Int
  nc : Int

/-- The grid state of all channels during decode: channel index, then
coordinate, to sample value. Channels are zero-initialised. -/
abbrev GridState := Int → Int × Int → Rat

/-- Zero-initialised channel grids, as produced by the channel factory. -/
def zeroGrid : GridState := fun _ _ => 0

/-- `channels[c].at({x, y}) = v`: pointwise update of the grid state. -/
def writeSample (g : GridState) (c : Int) (p : Int × Int) (v : Rat) : GridState :=
  fun c2 p2 => if c2 = c ∧ p2 = p then v else g c2 p2

/-- The index list of a C-style loop `for (i = 0; i < n; ++i)` with a
(possibly non-positive) signed bound. -/
def intRange (n : Int) : List Int :=
  (List.range n.toNat).map fun (i : Nat) => (i : Int)

/-- `swapBytes` applied under the swap decision: reverse the sample's 4
bytes before interpretation exactly when swapping is on. -/
def maybeSwap (b : Bool) (word : List Nat) : List Nat :=
  if b then word.reverse else word

/-- The sample stored for row `y`, column `x`, channel `c`:
`scale * (shallSwapBytes ? swapBytes(data[(y*w+x)*nc+c]) : data[(y*w+x)*nc+c])`,
with byte swapping modelled as reversing the sample's 4 bytes before
interpretation. -/
def sampleVal (ctx : DecodeCtx) (y x c : Int) : Rat :=
  ctx.scaleQ * ctx.interp (maybeSwap ctx.swap (ctx.words.getD ((y * ctx.w + x) * ctx.nc + c).toNat []))

/-- Body of the innermost loop `for (int c = 0; c < numChannels; ++c)`. -/
def colStep (ctx : DecodeCtx) (y x : Int) (g : GridState) (c : Int) : GridState :=
  writeSample g c (x, ctx.h - y - 1) (sampleVal ctx y x c)

/-- Body of the loop `for (int x = 0; x < size.x(); ++x)`. -/
def xStep (ctx : DecodeCtx) (y : Int) (g : GridState) (x : Int) : GridState :=
  (intRange ctx.nc).foldl (colStep ctx y x) g

/-- The per-row task handed to `parallelFor`: scatter row `y` of the buffer
into the channels, flipped to output row `h - y - 1`. -/
def rowBody (ctx : DecodeCtx) (y : Int) (g : GridState) : GridState :=
  (intRange ctx.w).foldl (xStep ctx y) g

/-- Run the per-row tasks for the rows listed in `ys`, in that order. -/
def decodeFold (ctx : DecodeCtx) (ys : List Int) (g : GridState) : GridState :=
  ys.foldl (fun g y => rowBody ctx y g) g

/-- The full scatter pass: all rows `0 <= y < h` over zero-initialised
channels (the canonical sequential order of `parallelFor(0, size.y())`). -/
def decodeGrid (ctx : DecodeCtx) : GridState :=
  decodeFold ctx (intRange ctx.h) zeroGrid

/-- Write the final grid state back into the channel list produced by the
channel factory (channel `i` keeps its name and takes grid slice `i`). -/
def applyGrid (chs : List Channel) (g : GridState) : List Channel :=
  (List.range chs.length).map fun i => ⟨(chs.getD i chDummy).name, g (i : Int)⟩

/-- The `matches` collection loop of `load`: walk the channels with their
index `i`, keeping `(matchId, i)` for each channel the fuzzy matcher accepts. -/
def matchesFromIdx (m : String → String → Option Nat) (sel : String) :
    Nat → List Channel → List (Nat × Nat)
  | _, [] => []
  | i, ch :: rest =>
    match m ch.name sel with
    | some rid => (rid, i) :: matchesFromIdx m sel (i + 1) rest
    | none => matchesFromIdx m sel (i + 1) rest

/-- All `(matchId, channelIndex)` pairs, in channel order. -/
def matchesOf (m : String → String → Option Nat) (sel : String)
    (chans : List Channel) : List (Nat × Nat) :=
  matchesFromIdx m sel 0 chans

/-- The decoded channel list of `load`, before selection: the channels from
the factory, with their grids filled by the full scatter pass over the
payload. -/
def decodedChannels (interp : List Nat → Rat) (hostLE : Bool) (scale : PfmFloat)
    (w h : Int) (nc : Nat) (payload : List Nat) : List Channel :=
  applyGrid (makeNChannels nc)
    (decodeGrid ⟨interp, scale.absQ, shallSwapBytes hostLE scale.isNeg,
      chunk4 payload, w, h, (nc : Int)⟩)

/-- The comparison `std::sort` uses on `pair<size_t, size_t>`: lexicographic,
i.e. by match rank and then by original channel index. -/
def pairLeP (a b : Nat × Nat) : Prop :=
  a.1 < b.1 ∨ (a.1 = b.1 ∧ a.2 ≤ b.2)

instance : DecidableRel pairLeP := fun a b => by
  unfold pairLeP; exact inferInstance

instance : IsTotal (Nat × Nat) pairLeP :=
  ⟨by intro a b; unfold pairLeP; omega⟩

instance : IsTrans (Nat × Nat) pairLeP :=
  ⟨by intro a b c; unfold pairLeP; omega⟩

/-- The channel-selection pass of `load`: collect the matches, sort them
(only when the selector is non-empty), then move the selected channels into
the result in that order. -/
def selectChannels (m : String → String → Option Nat) (sel : String)
    (chans : List Channel) : List Channel :=
  let ms := matchesOf m sel chans
  let sorted := if sel.isEmpty then ms else List.insertionSort pairLeP ms
  sorted.map fun p => chans.getD p.2 chDummy

/-- `PfmImageLoader::load` from the point where the four header tokens have
been extracted (`magic`, `w`, `h`, `scale`); `s` is the stream positioned
right after the textual parse. `interp` stands for the host's bit-level
float decoding, `hostLE` for `isSystemLittleEndian()`, and `m` for the
external fuzzy matcher. Returns the `ImageData` together with the
`hasPremultipliedAlpha` out-parameter. -/
def loadBody (interp : List Nat → Rat) (hostLE : Bool)
    (m : String → String → Option Nat) (magic : String) (w h : Int)
    (scale : PfmFloat) (s : Strm) (channelSelector : String) :
    Except LoadErr (ImageData × Bool) :=
  match numChannelsOfMagic magic with
  | none => .error (.invalidMagic magic)
  | some nc =>
    if !scale.isFinite || scale.isZero then .error (.invalidScale scale)
    else
      -- Line 51, `makeNChannels(numChannels, size)`: allocating a grid with a
      -- negative dimension throws (length_error / bad_alloc); the same
      -- dimensions would also make `vector<float> data(numFloats)` at line 66
      -- throw, its negative count converting to a huge size_t. After this
      -- guard and the zero-pixel guard, numFloats is positive and that
      -- allocation can no longer fail on its count.
      if w < 0 ∨ h < 0 then .error .allocFailed
      else if w * h = 0 then .error .zeroPixels
      else
        let numBytes : Int := w * h * nc * 4
        let r := readBytes (skipHeaderLine s) numBytes
        if (r.1.length : Int) < numBytes then .error (.truncated r.1.length numBytes)
        else
          let decoded := decodedChannels interp hostLE scale w h nc r.1
          .ok (⟨selectChannels m channelSelector decoded, [""]⟩, false)

/-- `PfmImageLoader::load` in full: extract the four header tokens
(`iStream >> magic >> size.x() >> size.y() >> scale`) and continue with
`loadBody`. -/
def load (interp : List Nat → Rat) (hostLE : Bool)
    (m : String → String → Option Nat) (s : Strm) (channelSelector : String) :
    Except LoadErr (ImageData × Bool) :=
  let t1 := extractToken s
  let t2 := extractInt t1.2
  let t3 := extractInt t2.2
  let t4 := extractFloat t3.2
  loadBody interp hostLE m t1.1 t2.1 t3.1 t4.1 t4.2 channelSelector

/-- Spec-side formula of claims C1/C2: the value that must be stored for row
`y`, column `x`, channel `c` — the payload sample at flat index
`(y*w+x)*nc + c`, its 4 bytes reversed exactly when swapping is on, times the
scale multiplier. -/
def specStoredSample (interp : List Nat → Rat) (swap : Bool) (scaleQ : Rat)
    (w : Int) (nc : Nat) (payload : List Nat) (y x c : Int) : Rat :=
  scaleQ * interp (maybeSwap swap ((chunk4 payload).getD ((y * w + x) * nc + c).toNat []))

/-- A concrete bit-level interpretation for witnesses: the big-endian integer
value of the 4 bytes (injective on byte order, so it distinguishes swapped
from unswapped samples). -/
def interp0 (word : List Nat) : Rat :=
  (word.foldl (fun a b => a * 256 + b) 0 : Nat)

/-- A concrete fuzzy matcher for witnesses: everything matches at rank 0. -/
def matchAll : String → String → Option Nat := fun _ _ => some 0

/-- A concrete fuzzy matcher for witnesses: the empty selector matches
everything, a non-empty selector matches exactly the equal name. -/
def matchExact : String → String → Option Nat := fun name sel =>
  if sel = "" then some 0 else if name = sel then some 0 else none

/-- Concrete channels named R, G, B for witnesses. -/
def chansRGB : List Channel :=
  [⟨"R", fun _ => 0⟩, ⟨"G", fun _ => 0⟩, ⟨"B", fun _ => 0⟩]

/-- A concrete post-header stream for witnesses: a line feed terminating the
header, then one 4-byte sample. -/
def strmPf1x1 : Strm := ⟨[10, 1, 2, 3, 4], 0, false⟩

/-- A concrete stream whose full content is the header "PFX 1 1 1.0" plus a
line feed: the 2-byte sniff accepts it, the magic check rejects it. -/
def strmPFX : Strm := ⟨[80, 70, 88, 32, 49, 32, 49, 32, 49, 46, 48, 10], 0, false⟩

/-- A concrete stream holding bytes "PFA", positioned at offset 1. -/
def strmOff1 : Strm := ⟨[80, 70, 65], 1, false⟩

/-- A concrete post-header stream holding only the header terminator. -/
def strmTermOnly : Strm := ⟨[10], 0, false⟩

/-- A concrete post-header stream with leftover whitespace and garbage before
the carriage-return terminator, then 2 payload bytes. -/
def strmGarb : Strm := ⟨[32, 65, 13, 7, 7], 0, false⟩

/-- A concrete small decode context for witnesses: 1 column, 2 rows,
1 channel, two 4-byte samples, scale 1, no swapping. -/
def ctxSmall : DecodeCtx :=
  ⟨interp0, 1, false, [[1, 2, 3, 4], [5, 6, 7, 8]], 1, 2, 1⟩

/-! ### Characterisation of the scatter loops -/

theorem mem_intRange {a n : Int} : a ∈ intRange n ↔ 0 ≤ a ∧ a < n := by
  simp only [intRange, List.mem_map, List.mem_range]
  constructor
  · rintro ⟨i, hi, rfl⟩; omega
  · rintro ⟨h0, h1⟩; exact ⟨a.toNat, by omega, by omega⟩

theorem writeSample_apply (g : GridState) (c : Int) (p : Int × Int) (v : Rat)
    (c2 : Int) (p2 : Int × Int) :
    writeSample g c p v c2 p2 = if c2 = c ∧ p2 = p then v else g c2 p2 := rfl

theorem colFold_apply (ctx : DecodeCtx) (y x : Int) (cs : List Int)
    (g : GridState) (c2 : Int) (p2 : Int × Int) :
    (cs.foldl (colStep ctx y x) g) c2 p2 =
      if c2 ∈ cs ∧ p2 = (x, ctx.h - y - 1) then sampleVal ctx y x c2
      else g c2 p2 := by
  induction cs generalizing g with
  | nil => simp
  | cons c cs ih =>
    rw [List.foldl_cons, ih]
    by_cases hmem : c2 ∈ cs ∧ p2 = (x, ctx.h - y - 1)
    · simp [hmem, List.mem_cons, hmem.1, hmem.2]
    · rw [if_neg hmem]
      show (if c2 = c ∧ p2 = (x, ctx.h - y - 1) then _ else _) = _
      by_cases hc : c2 = c ∧ p2 = (x, ctx.h - y - 1)
      · rw [if_pos hc, if_pos (by simp [List.mem_cons, hc.1, hc.2])]
        rw [hc.1]
      · rw [if_neg hc, if_neg ?_]
        intro ⟨hm, hp⟩
        rcases List.mem_cons.mp hm with h | h
        · exact hc ⟨h, hp⟩
        · exact hmem ⟨h, hp⟩

theorem xFold_apply (ctx : DecodeCtx) (y : Int) (xs : List Int)
    (g : GridState) (c2 : Int) (p2 : Int × Int) :
    (xs.foldl (xStep ctx y) g) c2 p2 =
      if p2.1 ∈ xs ∧ p2.2 = ctx.h - y - 1 ∧ c2 ∈ intRange ctx.nc then
        sampleVal ctx y p2.1 c2
      else g c2 p2 := by
  induction xs generalizing g with
  | nil => simp
  | cons x xs ih =>
    rw [List.foldl_cons, ih]
    by_cases hmem : p2.1 ∈ xs ∧ p2.2 = ctx.h - y - 1 ∧ c2 ∈ intRange ctx.nc
    · simp [hmem, List.mem_cons, hmem.1, hmem.2.1, hmem.2.2]
    · rw [if_neg hmem]
      show (intRange ctx.nc).foldl (colStep ctx y x) g c2 p2 = _
      rw [colFold_apply]
      by_cases hc : c2 ∈ intRange ctx.nc ∧ p2 = (x, ctx.h - y - 1)
      · rw [if_pos hc, if_pos ?_, hc.2]
        refine ⟨by simp [List.mem_cons, hc.2], by simp [hc.2], hc.1⟩
      · rw [if_neg hc, if_neg ?_]
        intro ⟨hx, hrow, hcc⟩
        rcases List.mem_cons.mp hx with h | h
        · exact hc ⟨hcc, by rcases p2 with ⟨a, b⟩; simp_all⟩
        · exact hmem ⟨h, hrow, hcc⟩

theorem decodeFold_apply (ctx : DecodeCtx) (ys : List Int)
    (g : GridState) (c2 : Int) (p2 : Int × Int) :
    decodeFold ctx ys g c2 p2 =
      if (ctx.h - 1 - p2.2) ∈ ys ∧ p2.1 ∈ intRange ctx.w ∧ c2 ∈ intRange ctx.nc then
        sampleVal ctx (ctx.h - 1 - p2.2) p2.1 c2
      else g c2 p2 := by
  induction ys generalizing g with
  | nil => simp [decodeFold]
  | cons y ys ih =>
    show decodeFold ctx ys (rowBody ctx y g) c2 p2 = _
    rw [ih]
    by_cases hmem : (ctx.h - 1 - p2.2) ∈ ys ∧ p2.1 ∈ intRange ctx.w ∧ c2 ∈ intRange ctx.nc
    · simp [hmem, List.mem_cons, hmem.1, hmem.2.1, hmem.2.2]
    · rw [if_neg hmem]
      show (intRange ctx.w).foldl (xStep ctx y) g c2 p2 = _
      rw [xFold_apply]
      by_cases hc : p2.1 ∈ intRange ctx.w ∧ p2.2 = ctx.h - y - 1 ∧ c2 ∈ intRange ctx.nc
      · rw [if_pos hc, if_pos ?_]
        · have : ctx.h - 1 - p2.2 = y := by omega
          rw [this]
        · exact ⟨by simp [List.mem_cons]; omega, hc.1, hc.2.2⟩
      · rw [if_neg hc, if_neg ?_]
        intro ⟨hy, hx, hcc⟩
        rcases List.mem_cons.mp hy with h | h
        · exact hc ⟨hx, by omega, hcc⟩
        · exact hmem ⟨h, hx, hcc⟩

theorem decodeGrid_apply (ctx : DecodeCtx) (c2 : Int) (p2 : Int × Int) :
    decodeGrid ctx c2 p2 =
      if 0 ≤ ctx.h - 1 - p2.2 ∧ ctx.h - 1 - p2.2 < ctx.h ∧
          0 ≤ p2.1 ∧ p2.1 < ctx.w ∧ 0 ≤ c2 ∧ c2 < ctx.nc then
        sampleVal ctx (ctx.h - 1 - p2.2) p2.1 c2
      else 0 := by
  rw [decodeGrid, decodeFold_apply]
  simp only [mem_intRange, zeroGrid]
  by_cases h1 : 0 ≤ ctx.h - 1 - p2.2 ∧ ctx.h - 1 - p2.2 < ctx.h ∧
      0 ≤ p2.1 ∧ p2.1 < ctx.w ∧ 0 ≤ c2 ∧ c2 < ctx.nc
  · rw [if_pos h1, if_pos ⟨⟨h1.1, h1.2.1⟩, ⟨h1.2.2.1, h1.2.2.2.1⟩, h1.2.2.2.2⟩]
  · rw [if_neg h1, if_neg ?_]
    intro ⟨ha, hb, hc⟩
    exact h1 ⟨ha.1, ha.2, hb.1, hb.2, hc.1, hc.2⟩

/-! ### Stream lemmas -/

theorem takeWhile_middle (p : Nat → Bool) (pre : List Nat) (t : Nat) (post : List Nat)
    (hpre : ∀ b ∈ pre, p b = true) (ht : p t = false) :
    (pre ++ t :: post).takeWhile p = pre := by
  induction pre with
  | nil => simp [List.takeWhile_cons, ht]
  | cons a pre ih =>
    have ha : p a = true := hpre a (List.mem_cons_self a pre)
    simp only [List.cons_append, List.takeWhile_cons, ha, if_true]
    rw [ih fun b hb => hpre b (List.mem_cons_of_mem a hb)]

theorem skipHeaderLine_eq (s : Strm) (pre : List Nat) (t : Nat) (rest : List Nat)
    (hfail : s.fail = false) (hsplit : s.data.drop s.pos = pre ++ t :: rest)
    (hpre : ∀ b ∈ pre, notTermByte b = true) (ht : notTermByte t = false) :
    skipHeaderLine s = { s with pos := s.pos + pre.length + 1 } := by
  rw [skipHeaderLine]
  rw [if_neg (by simp [hfail])]
  rw [hsplit]
  simp only []
  rw [takeWhile_middle notTermByte pre t rest hpre ht]
  rw [if_pos (by simp)]

theorem pos_le_of_split (s : Strm) (pre : List Nat) (t : Nat) (rest : List Nat)
    (hsplit : s.data.drop s.pos = pre ++ t :: rest) :
    s.pos ≤ s.data.length ∧ s.data.length - s.pos = pre.length + 1 + rest.length := by
  have hlen : (s.data.drop s.pos).length = pre.length + 1 + rest.length := by
    rw [hsplit]; simp; omega
  rw [List.length_drop] at hlen
  constructor
  · by_contra hcon
    have hnil : s.data.drop s.pos = [] := List.drop_eq_nil_of_le (by omega)
    rw [hsplit] at hnil
    simp at hnil
  · exact hlen

theorem drop_after_terminator (s : Strm) (pre : List Nat) (t : Nat) (rest : List Nat)
    (hsplit : s.data.drop s.pos = pre ++ t :: rest) :
    s.data.drop (s.pos + pre.length + 1) = rest := by
  have h1 : s.data.drop (s.pos + pre.length + 1) = (s.data.drop s.pos).drop (pre.length + 1) := by
    rw [List.drop_drop]
    congr 1
  rw [h1, hsplit]
  have h2 : pre ++ t :: rest = (pre ++ [t]) ++ rest := by simp
  rw [h2]
  have h3 : pre.length + 1 = (pre ++ [t]).length := by simp
  rw [h3, List.drop_left]

/-! ### The success path of `loadBody` -/

theorem numChannelsOfMagic_pos {magic : String} {nc : Nat}
    (h : numChannelsOfMagic magic = some nc) : 0 < nc := by
  rw [numChannelsOfMagic] at h
  split_ifs at h <;> simp only [Option.some.injEq] at h <;> omega

theorem loadBody_ok_spec (interp : List Nat → Rat) (hostLE : Bool)
    (m : String → String → Option Nat) (magic : String) (w h : Int) (q : Rat)
    (s : Strm) (sel : String) (nc : Nat) (pre : List Nat) (t : Nat) (rest : List Nat)
    (hnc : numChannelsOfMagic magic = some nc)
    (hq : q ≠ 0) (hw : 0 < w) (hh : 0 < h)
    (hfail : s.fail = false)
    (hsplit : s.data.drop s.pos = pre ++ t :: rest)
    (hpre : ∀ b ∈ pre, notTermByte b = true) (ht : notTermByte t = false)
    (hlen : (w * h * nc * 4 : Int) ≤ (rest.length : Int)) :
    loadBody interp hostLE m magic w h (.fin q) s sel =
      .ok (⟨selectChannels m sel (decodedChannels interp hostLE (.fin q) w h nc
            (rest.take (w * h * nc * 4 : Int).toNat)), [""]⟩, false) := by
  have hnc0 : 0 < nc := numChannelsOfMagic_pos hnc
  have hNBpos : 0 < (w * h * nc * 4 : Int) := by
    have h1 : (0 : Int) < w * h := mul_pos hw hh
    have h2 : (0 : Int) < nc := by exact_mod_cast hnc0
    have h3 : (0 : Int) < w * h * nc := mul_pos h1 h2
    omega
  obtain ⟨hposle, hdl⟩ := pos_le_of_split s pre t rest hsplit
  have hskip : skipHeaderLine s = { s with pos := s.pos + pre.length + 1 } :=
    skipHeaderLine_eq s pre t rest hfail hsplit hpre ht
  have hdrop : s.data.drop (s.pos + pre.length + 1) = rest :=
    drop_after_terminator s pre t rest hsplit
  have hread : readBytes (skipHeaderLine s) (w * h * nc * 4 : Int) =
      (rest.take (w * h * nc * 4 : Int).toNat,
        { s with pos := s.pos + pre.length + 1 + (w * h * nc * 4 : Int).toNat,
                 fail := false }) := by
    rw [hskip, readBytes]
    rw [if_neg (show ¬ (s.fail = true) by simp [hfail])]
    simp only []
    have havail : s.data.length - (s.pos + pre.length + 1) = rest.length := by omega
    rw [hdrop, havail]
    have hmin : min (w * h * nc * 4 : Int).toNat rest.length = (w * h * nc * 4 : Int).toNat := by
      omega
    rw [hmin]
    have hfail2 : decide (((w * h * nc * 4 : Int).toNat : Int) < (w * h * nc * 4 : Int)) = false := by
      simp only [decide_eq_false_iff_not, not_lt]
      omega
    rw [hfail2]
  have hgot : ((rest.take (w * h * nc * 4 : Int).toNat).length : Int) = (w * h * nc * 4 : Int) := by
    rw [List.length_take]
    omega
  rw [loadBody, hnc]
  try simp only []
  rw [if_neg (show ¬ ((!(PfmFloat.fin q).isFinite || (PfmFloat.fin q).isZero) = true) by
    simp [PfmFloat.isFinite, PfmFloat.isZero, hq])]
  try simp only []
  rw [if_neg (show ¬ (w < 0 ∨ h < 0) by omega)]
  try simp only []
  rw [if_neg (mul_pos hw hh).ne']
  try simp only []
  rw [hread]
  rw [if_neg (by rw [hgot]; omega)]

/-! ### Channel selection lemmas -/

theorem matchesFromIdx_passthrough (m : String → String → Option Nat) :
    ∀ (chans : List Channel) (i : Nat) (L : List Channel),
      (∀ ch ∈ chans, (m ch.name "").isSome = true) →
      (∀ j, j < chans.length → L.getD (i + j) chDummy = chans.getD j chDummy) →
      (matchesFromIdx m "" i chans).map (fun p => L.getD p.2 chDummy) = chans := by
  intro chans
  induction chans with
  | nil => intro i L _ _; simp [matchesFromIdx]
  | cons ch rest ih =>
    intro i L hm hL
    obtain ⟨r, hr⟩ := Option.isSome_iff_exists.mp (hm ch (List.mem_cons_self ch rest))
    rw [matchesFromIdx, hr]
    simp only [List.map_cons]
    congr 1
    · have h0 := hL 0 (by simp)
      simpa using h0
    · refine ih (i + 1) L (fun c hc => hm c (List.mem_cons_of_mem ch hc)) ?_
      intro j hj
      have hj1 := hL (j + 1) (by simpa using Nat.succ_lt_succ hj)
      have harith : i + 1 + j = i + (j + 1) := by omega
      rw [harith]
      simpa using hj1

theorem matchesFromIdx_mem (m : String → String → Option Nat) (sel : String) :
    ∀ (chans : List Channel) (i r k : Nat),
      (r, k) ∈ matchesFromIdx m sel i chans ↔
        ∃ j, j < chans.length ∧ k = i + j ∧
          m (chans.getD j chDummy).name sel = some r := by
  intro chans
  induction chans with
  | nil => intro i r k; simp [matchesFromIdx]
  | cons ch rest ih =>
    intro i r k
    rw [matchesFromIdx]
    cases hm : m ch.name sel with
    | some rid =>
      simp only [List.mem_cons, Prod.mk.injEq]
      constructor
      · rintro (⟨hre, hke⟩ | hmem)
        · exact ⟨0, by simp, by omega, by simp [hm, hre]⟩
        · obtain ⟨j, hj, hk, hmj⟩ := (ih (i + 1) r k).mp hmem
          exact ⟨j + 1, by simpa using Nat.succ_lt_succ hj, by omega, by simpa using hmj⟩
      · rintro ⟨j, hj, hk, hmj⟩
        cases j with
        | zero =>
          left
          simp only [List.getD_cons_zero] at hmj
          rw [hm] at hmj
          exact ⟨(Option.some.injEq _ _ ▸ hmj).symm, by omega⟩
        | succ j2 =>
          right
          refine (ih (i + 1) r k).mpr
            ⟨j2, by simp only [List.length_cons] at hj; omega, by omega, by simpa using hmj⟩
    | none =>
      constructor
      · intro hmem
        obtain ⟨j, hj, hk, hmj⟩ := (ih (i + 1) r k).mp hmem
        exact ⟨j + 1, by simpa using Nat.succ_lt_succ hj, by omega, by simpa using hmj⟩
      · rintro ⟨j, hj, hk, hmj⟩
        cases j with
        | zero =>
          simp only [List.getD_cons_zero] at hmj
          rw [hm] at hmj
          exact absurd hmj (by simp)
        | succ j2 =>
          refine (ih (i + 1) r k).mpr
            ⟨j2, by simp only [List.length_cons] at hj; omega, by omega, by simpa using hmj⟩

theorem selectChannels_empty (m : String → String → Option Nat) (chans : List Channel)
    (hm : ∀ ch ∈ chans, (m ch.name "").isSome = true) :
    selectChannels m "" chans = chans := by
  rw [selectChannels]
  simp only [matchesOf]
  rw [if_pos (by rfl)]
  exact matchesFromIdx_passthrough m chans 0 chans hm (fun j hj => by rw [Nat.zero_add])

theorem selectChannels_nonempty (m : String → String → Option Nat) (sel : String)
    (chans : List Channel) (hsel : sel.isEmpty = false) :
    selectChannels m sel chans =
      (List.insertionSort pairLeP (matchesOf m sel chans)).map
        (fun p => chans.getD p.2 chDummy) := by
  rw [selectChannels]
  try simp only []
  rw [if_neg (by simp [hsel])]

/-! ### Channel assembly lemmas -/

theorem makeNChannels_length (n : Nat) : (makeNChannels n).length = n := by
  simp [makeNChannels]

theorem applyGrid_getD (chs : List Channel) (g : GridState) (i : Nat)
    (hi : i < chs.length) :
    (applyGrid chs g).getD i chDummy = ⟨(chs.getD i chDummy).name, g (i : Int)⟩ := by
  rw [applyGrid]
  have hlen : i < ((List.range chs.length).map
      (fun i => (⟨(chs.getD i chDummy).name, g (i : Int)⟩ : Channel))).length := by
    simpa using hi
  rw [List.getD_eq_getElem _ _ hlen, List.getElem_map, List.getElem_range]

theorem decodedChannels_value (interp : List Nat → Rat) (hostLE : Bool) (q : Rat)
    (w h : Int) (nc : Nat) (payload : List Nat) (y x c : Int)
    (hy0 : 0 ≤ y) (hy1 : y < h) (hx0 : 0 ≤ x) (hx1 : x < w)
    (hc0 : 0 ≤ c) (hc1 : c < (nc : Int)) :
    ((decodedChannels interp hostLE (.fin q) w h nc payload).getD c.toNat chDummy).atPos
        (x, h - 1 - y) =
      specStoredSample interp (shallSwapBytes hostLE (decide (q < 0))) |q| w nc payload
        y x c := by
  rw [decodedChannels]
  have hcn : c.toNat < (makeNChannels nc).length := by
    rw [makeNChannels_length]; omega
  rw [applyGrid_getD _ _ _ hcn]
  simp only []
  have hcast : ((c.toNat : Nat) : Int) = c := by omega
  rw [hcast, decodeGrid_apply]
  simp only []
  rw [if_pos (by constructor <;> [omega; (constructor <;> [omega; (constructor <;>
    [omega; (constructor <;> [omega; (constructor <;> [omega; omega])])])])])]
  have hyy : h - 1 - (h - 1 - y) = y := by omega
  simp only [sampleVal, specStoredSample, PfmFloat.absQ, PfmFloat.isNeg]
  rw [hyy]

/-! ### Error-path lemmas of `loadBody` -/

theorem loadBody_scale_err (interp : List Nat → Rat) (hostLE : Bool)
    (m : String → String → Option Nat) (magic : String) (w h : Int)
    (scale : PfmFloat) (s : Strm) (sel : String) (nc : Nat)
    (hnc : numChannelsOfMagic magic = some nc)
    (hbad : scale.isFinite = false ∨ scale.isZero = true) :
    loadBody interp hostLE m magic w h scale s sel = .error (.invalidScale scale) := by
  rw [loadBody, hnc]
  try simp only []
  rw [if_pos (show (!scale.isFinite || scale.isZero) = true by
    rcases hbad with hb | hb <;> simp [hb])]

/-! ### The claims -/

/-- C1: for every valid PFM input (recognised magic giving `nc` channels,
finite non-zero scale, positive dimensions, a header-terminator byte, and at
least `w*h*nc*4` payload bytes after it), `load` succeeds, and every decoded
sample — the one at flat buffer index `(y*w+x)*nc + c`, byte-swapped exactly
when `shallSwapBytes` holds, multiplied by the validated scale — is stored in
channel `c` at coordinate `(x, h-1-y)`. -/
theorem c1_decode_flip_scatter
    (interp : List Nat → Rat) (hostLE : Bool) (m : String → String → Option Nat)
    (magic : String) (w h : Int) (q : Rat) (s : Strm) (sel : String)
    (nc : Nat) (pre : List Nat) (t : Nat) (rest : List Nat)
    (hnc : numChannelsOfMagic magic = some nc)
    (hq : q ≠ 0) (hw : 0 < w) (hh : 0 < h)
    (hfail : s.fail = false)
    (hsplit : s.data.drop s.pos = pre ++ t :: rest)
    (hpre : ∀ b ∈ pre, notTermByte b = true) (ht : notTermByte t = false)
    (hlen : (w * h * nc * 4 : Int) ≤ (rest.length : Int)) :
    loadBody interp hostLE m magic w h (.fin q) s sel =
      .ok (⟨selectChannels m sel (decodedChannels interp hostLE (.fin q) w h nc
            (rest.take (w * h * nc * 4 : Int).toNat)), [""]⟩, false) ∧
    ∀ y x c : Int, 0 ≤ y → y < h → 0 ≤ x → x < w → 0 ≤ c → c < (nc : Int) →
      ((decodedChannels interp hostLE (.fin q) w h nc
          (rest.take (w * h * nc * 4 : Int).toNat)).getD c.toNat chDummy).atPos
          (x, h - 1 - y) =
        specStoredSample interp (shallSwapBytes hostLE (decide (q < 0))) |q| w nc
          (rest.take (w * h * nc * 4 : Int).toNat) y x c := by
  refine ⟨loadBody_ok_spec interp hostLE m magic w h q s sel nc pre t rest
    hnc hq hw hh hfail hsplit hpre ht hlen, ?_⟩
  intro y x c hy0 hy1 hx0 hx1 hc0 hc1
  exact decodedChannels_value interp hostLE q w h nc _ y x c hy0 hy1 hx0 hx1 hc0 hc1

theorem c1_decode_flip_scatter_witness :
    numChannelsOfMagic "Pf" = some 1 ∧ ((1 : Rat) ≠ 0) ∧ ((0 : Int) < 1) ∧
    (loadBody interp0 true matchAll "Pf" 1 1 (.fin 1) strmPf1x1 "" =
      .ok (⟨selectChannels matchAll "" (decodedChannels interp0 true (.fin 1) 1 1 1
            (List.take (1 * 1 * ((1 : Nat) : Int) * 4).toNat [1, 2, 3, 4])), [""]⟩, false) ∧
    ∀ y x c : Int, 0 ≤ y → y < 1 → 0 ≤ x → x < 1 → 0 ≤ c → c < ((1 : Nat) : Int) →
      ((decodedChannels interp0 true (.fin 1) 1 1 1
          (List.take (1 * 1 * ((1 : Nat) : Int) * 4).toNat [1, 2, 3, 4])).getD c.toNat
          chDummy).atPos (x, 1 - 1 - y) =
        specStoredSample interp0 (shallSwapBytes true (decide ((1 : Rat) < 0))) |(1 : Rat)|
          1 1 (List.take (1 * 1 * ((1 : Nat) : Int) * 4).toNat [1, 2, 3, 4]) y x c) :=
  ⟨rfl, by norm_num, by decide,
    c1_decode_flip_scatter interp0 true matchAll "Pf" 1 1 1 strmPf1x1 "" 1 [] 10 [1, 2, 3, 4]
      rfl (by norm_num) (by decide) (by decide) rfl rfl (by simp) rfl (by decide)⟩

/-- C2 (amended): with a recognised magic, a non-finite or zero scale makes
load fail with the invalid-scale error; a valid scale `q` makes bytes swap
exactly when host endianness differs from the source endianness encoded by
the sign of `q` (negative means little-endian source), and every stored
sample is the interpreted (possibly swapped) payload word times `|q|`. (At
scale -2.5 load succeeds with multiplier 2.5; the byte swap is enabled
exactly when the host is big-endian.) -/
theorem c2_scale_validation
    (interp : List Nat → Rat) (hostLE : Bool) (m : String → String → Option Nat)
    (magic : String) (w h : Int) (s : Strm) (sel : String) (nc : Nat)
    (hnc : numChannelsOfMagic magic = some nc) :
    (∀ scale : PfmFloat, scale.isFinite = false ∨ scale.isZero = true →
        loadBody interp hostLE m magic w h scale s sel = .error (.invalidScale scale)) ∧
    (∀ q : Rat, shallSwapBytes hostLE (PfmFloat.isNeg (.fin q)) = true ↔
        hostLE ≠ decide (q < 0)) ∧
    (∀ q : Rat, q ≠ 0 → ∀ (payload : List Nat) (y x c : Int),
        0 ≤ y → y < h → 0 ≤ x → x < w → 0 ≤ c → c < (nc : Int) →
        ((decodedChannels interp hostLE (.fin q) w h nc payload).getD c.toNat
            chDummy).atPos (x, h - 1 - y) =
          specStoredSample interp (shallSwapBytes hostLE (decide (q < 0))) |q| w nc payload
            y x c) := by
  refine ⟨?_, ?_, ?_⟩
  · intro scale hbad
    exact loadBody_scale_err interp hostLE m magic w h scale s sel nc hnc hbad
  · intro q
    rw [shallSwapBytes, PfmFloat.isNeg]
    cases hostLE <;> cases hqd : decide (q < 0) <;> simp
  · intro q hq payload y x c hy0 hy1 hx0 hx1 hc0 hc1
    exact decodedChannels_value interp hostLE q w h nc payload y x c hy0 hy1 hx0 hx1 hc0 hc1

theorem c2_scale_validation_witness :
    numChannelsOfMagic "Pf" = some 1 ∧
    loadBody interp0 true matchAll "Pf" 1 1 .nan strmPf1x1 "" =
      .error (.invalidScale .nan) ∧
    (shallSwapBytes true (PfmFloat.isNeg (.fin (-(5/2) : Rat))) = true ↔
      (true : Bool) ≠ decide ((-(5/2) : Rat) < 0)) :=
  ⟨rfl,
    (c2_scale_validation interp0 true matchAll "Pf" 1 1 strmPf1x1 "" 1 rfl).1 .nan
      (Or.inl rfl),
    (c2_scale_validation interp0 true matchAll "Pf" 1 1 strmPf1x1 "" 1 rfl).2.1 (-(5/2))⟩

/-- Counterexample to C2 as stated: on a little-endian host
(`isSystemLittleEndian() = true`, the usual case) the scale -2.5 encodes a
little-endian source, so the byte swap is disabled, not enabled: the decoded
sample is the unswapped interpretation of its bytes (and differs from the
swapped one), refuting the claim that scale = -2.5 decodes with swap
enabled. -/
theorem c2_counterexample :
    shallSwapBytes true (PfmFloat.isNeg (.fin (-(5/2)))) = false ∧
    loadBody interp0 true matchAll "Pf" 1 1 (.fin (-(5/2))) strmPf1x1 "" =
      .ok (⟨selectChannels matchAll "" (decodedChannels interp0 true (.fin (-(5/2))) 1 1 1
            (List.take (1 * 1 * ((1 : Nat) : Int) * 4).toNat [1, 2, 3, 4])), [""]⟩, false) := by
  constructor
  · have hneg : ((-(5/2) : Rat) < 0) := by norm_num
    simp [shallSwapBytes, PfmFloat.isNeg, hneg]
  · exact loadBody_ok_spec interp0 true matchAll "Pf" 1 1 (-(5/2)) strmPf1x1 "" 1 [] 10
      [1, 2, 3, 4] rfl (by norm_num) (by decide) (by decide) rfl rfl (by simp) rfl (by decide)

/-- C3: with a valid header, load demands exactly `w*h*nc*4` payload bytes
after the terminator: if even one byte fewer is available it fails with the
truncation error carrying the bytes actually read and the bytes expected,
and returns no result; with enough bytes it reads exactly that many and
succeeds. -/
theorem c3_truncation
    (interp : List Nat → Rat) (hostLE : Bool) (m : String → String → Option Nat)
    (magic : String) (w h : Int) (q : Rat) (s : Strm) (sel : String)
    (nc : Nat) (pre : List Nat) (t : Nat) (rest : List Nat)
    (hnc : numChannelsOfMagic magic = some nc)
    (hq : q ≠ 0) (hw : 0 < w) (hh : 0 < h)
    (hfail : s.fail = false)
    (hsplit : s.data.drop s.pos = pre ++ t :: rest)
    (hpre : ∀ b ∈ pre, notTermByte b = true) (ht : notTermByte t = false) :
    (((rest.length : Int)) < w * h * nc * 4 →
        loadBody interp hostLE m magic w h (.fin q) s sel =
          .error (.truncated rest.length (w * h * nc * 4))) ∧
    ((w * h * nc * 4 : Int) ≤ (rest.length : Int) →
        loadBody interp hostLE m magic w h (.fin q) s sel =
          .ok (⟨selectChannels m sel (decodedChannels interp hostLE (.fin q) w h nc
                (rest.take (w * h * nc * 4 : Int).toNat)), [""]⟩, false)) := by
  constructor
  · intro hshort
    have hnc0 : 0 < nc := numChannelsOfMagic_pos hnc
    have hNBpos : 0 < (w * h * nc * 4 : Int) := by
      have h1 : (0 : Int) < w * h := mul_pos hw hh
      have h2 : (0 : Int) < nc := by exact_mod_cast hnc0
      have h3 : (0 : Int) < w * h * nc := mul_pos h1 h2
      omega
    obtain ⟨hposle, hdl⟩ := pos_le_of_split s pre t rest hsplit
    have hskip : skipHeaderLine s = { s with pos := s.pos + pre.length + 1 } :=
      skipHeaderLine_eq s pre t rest hfail hsplit hpre ht
    have hdrop : s.data.drop (s.pos + pre.length + 1) = rest :=
      drop_after_terminator s pre t rest hsplit
    have hread : readBytes (skipHeaderLine s) (w * h * nc * 4 : Int) =
        (rest, { s with pos := s.pos + pre.length + 1 + rest.length, fail := true }) := by
      rw [hskip, readBytes]
      rw [if_neg (show ¬ (s.fail = true) by simp [hfail])]
      simp only []
      have havail : s.data.length - (s.pos + pre.length + 1) = rest.length := by omega
      rw [hdrop, havail]
      have hmin : min (w * h * nc * 4 : Int).toNat rest.length = rest.length := by
        omega
      rw [hmin, List.take_length]
      have hfl : decide ((rest.length : Int) < (w * h * nc * 4 : Int)) = true := by
        simpa using hshort
      rw [hfl]
    rw [loadBody, hnc]
    try simp only []
    rw [if_neg (show ¬ ((!(PfmFloat.fin q).isFinite || (PfmFloat.fin q).isZero) = true) by
      simp [PfmFloat.isFinite, PfmFloat.isZero, hq])]
    try simp only []
    rw [if_neg (show ¬ (w < 0 ∨ h < 0) by omega)]
    try simp only []
    rw [if_neg (mul_pos hw hh).ne']
    try simp only []
    rw [hread]
    rw [if_pos (by simpa using hshort)]
  · intro hlen
    exact loadBody_ok_spec interp hostLE m magic w h q s sel nc pre t rest
      hnc hq hw hh hfail hsplit hpre ht hlen

theorem c3_truncation_witness :
    numChannelsOfMagic "Pf" = some 1 ∧ (((List.length ([] : List Nat) : Int)) < 1 * 1 * ((1 : Nat) : Int) * 4) ∧
    loadBody interp0 true matchAll "Pf" 1 1 (.fin 1) strmTermOnly "" =
      .error (.truncated (List.length ([] : List Nat)) (1 * 1 * ((1 : Nat) : Int) * 4)) :=
  ⟨rfl, by decide,
    (c3_truncation interp0 true matchAll "Pf" 1 1 1 strmTermOnly "" 1 [] 10 []
      rfl (by norm_num) (by decide) (by decide) rfl rfl (by simp) rfl).1 (by decide)⟩

/-- C5: the magic dispatch used by load maps "Pf" to 1 channel, "PF" to 3 and
"PF4" to 4; any other token makes load fail with the InvalidFormat error
carrying that token. -/
theorem c5_magic_mapping :
    numChannelsOfMagic "Pf" = some 1 ∧ numChannelsOfMagic "PF" = some 3 ∧
    numChannelsOfMagic "PF4" = some 4 ∧
    ∀ (interp : List Nat → Rat) (hostLE : Bool) (m : String → String → Option Nat)
      (magic : String) (w h : Int) (scale : PfmFloat) (s : Strm) (sel : String),
      magic ≠ "Pf" → magic ≠ "PF" → magic ≠ "PF4" →
      loadBody interp hostLE m magic w h scale s sel = .error (.invalidMagic magic) := by
  refine ⟨rfl, rfl, rfl, ?_⟩
  intro interp hostLE m magic w h scale s sel h1 h2 h3
  have hn : numChannelsOfMagic magic = none := by
    rw [numChannelsOfMagic, if_neg h1, if_neg h2, if_neg h3]
  rw [loadBody, hn]

theorem c5_magic_mapping_witness :
    ("PFX" ≠ "Pf") ∧
    loadBody interp0 true matchAll "PFX" 1 1 (.fin 1) strmTermOnly "" =
      .error (.invalidMagic "PFX") :=
  ⟨by decide,
    c5_magic_mapping.2.2.2 interp0 true matchAll "PFX" 1 1 (.fin 1) strmTermOnly ""
      (by decide) (by decide) (by decide)⟩

/-- C6: channel selection — with the empty selector (given the spec-modelled
fact that the external matcher accepts every name on the empty selector)
every decoded channel passes through in its original order with no
re-sorting; with a non-empty selector the result is the list of matched
channels arranged by ascending match rank with ties broken by the original
channel index (`pairLeP` is that order), non-matching channels being dropped;
and the match list contains `(r, k)` exactly when the matcher accepts channel
`k` at rank `r`. -/
theorem c6_channel_selection (m : String → String → Option Nat)
    (chans : List Channel) (sel : String) :
    ((∀ ch ∈ chans, (m ch.name "").isSome = true) →
        selectChannels m "" chans = chans) ∧
    (sel ≠ "" →
        ∃ S : List (Nat × Nat), S.Perm (matchesOf m sel chans) ∧ S.Sorted pairLeP ∧
          selectChannels m sel chans = S.map fun p => chans.getD p.2 chDummy) ∧
    (∀ r k : Nat, (r, k) ∈ matchesOf m sel chans ↔
        k < chans.length ∧ m (chans.getD k chDummy).name sel = some r) := by
  refine ⟨?_, ?_, ?_⟩
  · intro hm
    exact selectChannels_empty m chans hm
  · intro hsel
    have hf : sel.isEmpty = false := by
      cases hse : sel.isEmpty
      · rfl
      · exact absurd ((String.isEmpty_iff sel).mp hse) hsel
    exact ⟨List.insertionSort pairLeP (matchesOf m sel chans),
      List.perm_insertionSort pairLeP _, List.sorted_insertionSort pairLeP _,
      selectChannels_nonempty m sel chans hf⟩
  · intro r k
    rw [matchesOf, matchesFromIdx_mem]
    constructor
    · rintro ⟨j, hj, hk, hmj⟩
      have hkj : k = j := by omega
      subst hkj
      exact ⟨hj, hmj⟩
    · rintro ⟨hk, hmm2⟩
      exact ⟨k, hk, by omega, hmm2⟩

theorem c6_channel_selection_witness :
    selectChannels matchExact "" chansRGB = chansRGB ∧
    (∃ S : List (Nat × Nat), S.Perm (matchesOf matchExact "G" chansRGB) ∧
      S.Sorted pairLeP ∧
      selectChannels matchExact "G" chansRGB = S.map fun p => chansRGB.getD p.2 chDummy) :=
  ⟨(c6_channel_selection matchExact chansRGB "G").1 (by decide),
    (c6_channel_selection matchExact chansRGB "G").2.1 (by decide)⟩

/-- Closed form of the sniff on a clean stream: the result flag tests the two
bytes at the current position, and the returned stream is always at position
0 with cleared flags. -/
theorem canLoadFile_eq (s : Strm) (hfail : s.fail = false) :
    canLoadFile s =
      ((decide (2 ≤ (s.data.drop s.pos).length)) &&
        ((s.data.drop s.pos).getD 0 0 == 80) &&
        (((s.data.drop s.pos).getD 1 0 == 70) || ((s.data.drop s.pos).getD 1 0 == 102)),
       { s with pos := 0, fail := false }) := by
  rw [canLoadFile, readBytes]
  rw [if_neg (show ¬ (s.fail = true) by simp [hfail])]
  try simp only []
  rw [show s.data.length - s.pos = (s.data.drop s.pos).length from
    (List.length_drop _ _).symm]
  generalize s.data.drop s.pos = l
  rcases l with _ | ⟨a, _ | ⟨b, l2⟩⟩
  · simp
  · simp
  · have hmin2 : min (Int.toNat 2) ((a :: b :: l2).length) = 2 := by
      simp only [List.length_cons]
      omega
    rw [hmin2]
    have htake : List.take 2 (a :: b :: l2) = [a, b] := rfl
    rw [htake]
    have hle : decide (2 ≤ (a :: b :: l2).length) = true := by
      simp [List.length_cons]
    rw [hle]
    simp [List.getD_cons_zero, List.getD_cons_succ]

/-- C7 (amended): on a stream with no error flag set, the sniff returns true
iff at least two bytes remain at the current position and they are 'P' then
'F' or 'f'; with fewer than 2 bytes it returns false without raising; and it
always returns the stream at position 0 with cleared flags — which is the
state found before the call exactly when the probe started at position 0
with clear flags. -/
theorem c7_sniff (s : Strm) (hfail : s.fail = false) :
    ((canLoadFile s).1 = true ↔
      2 ≤ (s.data.drop s.pos).length ∧ (s.data.drop s.pos).getD 0 0 = 80 ∧
        ((s.data.drop s.pos).getD 1 0 = 70 ∨ (s.data.drop s.pos).getD 1 0 = 102)) ∧
    ((s.data.drop s.pos).length < 2 → (canLoadFile s).1 = false) ∧
    (canLoadFile s).2 = { s with pos := 0, fail := false } := by
  rw [canLoadFile_eq s hfail]
  refine ⟨?_, ?_, rfl⟩
  · simp [Bool.and_eq_true, Bool.or_eq_true, decide_eq_true_eq, beq_iff_eq, and_assoc]
  · intro hlt
    have hd : decide (2 ≤ (s.data.drop s.pos).length) = false := by
      simp only [decide_eq_false_iff_not, not_le]
      omega
    try simp only []
    rw [hd]
    simp

theorem c7_sniff_witness :
    strmPFX.fail = false ∧
    (((canLoadFile strmPFX).1 = true ↔
        2 ≤ (strmPFX.data.drop strmPFX.pos).length ∧
          (strmPFX.data.drop strmPFX.pos).getD 0 0 = 80 ∧
          ((strmPFX.data.drop strmPFX.pos).getD 1 0 = 70 ∨
            (strmPFX.data.drop strmPFX.pos).getD 1 0 = 102)) ∧
      ((strmPFX.data.drop strmPFX.pos).length < 2 → (canLoadFile strmPFX).1 = false) ∧
      (canLoadFile strmPFX).2 = { strmPFX with pos := 0, fail := false }) :=
  ⟨rfl, c7_sniff strmPFX rfl⟩

/-- Counterexample to C7 as stated: on a stream found at position 1, the
sniff returns with the position reset to 0 — not "exactly as found". -/
theorem c7_counterexample : (canLoadFile strmOff1).2.pos ≠ strmOff1.pos := by decide

/-- C8: after the header tokens, load consumes bytes one at a time up to and
including the first carriage return or line feed — tolerating any
non-terminator garbage before it — and the payload read starts at the byte
immediately after that terminator. -/
theorem c8_header_terminator (s : Strm) (pre : List Nat) (t : Nat) (rest : List Nat)
    (hfail : s.fail = false) (hsplit : s.data.drop s.pos = pre ++ t :: rest)
    (hpre : ∀ b ∈ pre, notTermByte b = true) (ht : notTermByte t = false) :
    skipHeaderLine s = { s with pos := s.pos + pre.length + 1 } ∧
    (skipHeaderLine s).data.drop (skipHeaderLine s).pos = rest := by
  have h1 := skipHeaderLine_eq s pre t rest hfail hsplit hpre ht
  refine ⟨h1, ?_⟩
  rw [h1]
  exact drop_after_terminator s pre t rest hsplit

theorem c8_header_terminator_witness :
    (∀ b ∈ ([32, 65] : List Nat), notTermByte b = true) ∧
    skipHeaderLine strmGarb =
      { strmGarb with pos := strmGarb.pos + ([32, 65] : List Nat).length + 1 } ∧
    (skipHeaderLine strmGarb).data.drop (skipHeaderLine strmGarb).pos = [7, 7] :=
  ⟨by decide,
    (c8_header_terminator strmGarb [32, 65] 13 [7, 7] rfl rfl (by decide) rfl).1,
    (c8_header_terminator strmGarb [32, 65] 13 [7, 7] rfl rfl (by decide) rfl).2⟩

/-- C9: the decode is deterministic with respect to row scheduling — running
the per-row bodies in any order (any permutation of the row list, including
the strictly sequential one) gives the same grid as the sequential decode,
because distinct rows write disjoint output coordinates. -/
theorem c9_row_order_determinism (ctx : DecodeCtx) (l : List Int)
    (hperm : l.Perm (intRange ctx.h)) :
    decodeFold ctx l zeroGrid = decodeGrid ctx := by
  rw [decodeGrid]
  funext c2 p2
  rw [decodeFold_apply, decodeFold_apply]
  simp only [hperm.mem_iff]

theorem c9_row_order_determinism_witness :
    (([1, 0] : List Int).Perm (intRange ctxSmall.h)) ∧
    decodeFold ctxSmall [1, 0] zeroGrid = decodeGrid ctxSmall :=
  ⟨by decide, c9_row_order_determinism ctxSmall [1, 0] (by decide)⟩

/-- C10: the 2-byte sniff is strictly weaker than the magic validation: the
concrete stream holding "PFX 1 1 1.0" passes the sniff, yet load on that same
stream fails with the InvalidFormat error identifying the full token "PFX" —
so sniff acceptance does not guarantee that load succeeds. -/
theorem c10_sniff_weaker :
    (canLoadFile strmPFX).1 = true ∧
    ∀ (interp : List Nat → Rat) (hostLE : Bool) (m : String → String → Option Nat)
      (sel : String),
      load interp hostLE m strmPFX sel = .error (.invalidMagic "PFX") := by
  constructor
  · decide
  · intro interp hostLE m sel
    rfl

end Pfm
